import Mathlib

/-
Verification of the remote file replicator (src/remote_file_replicator.py)
against its natural-language specification.

Shallow embedding conventions:

* A filesystem tree is a `Node`: either a file with a content string, or a
  directory holding an ordered list of (name, child) pairs.  `listdir` order
  is the order of that list.
* Absolute paths under a replication root are represented by their lists of
  path components (`Path := List String`); `posixpath.join(root, p₁/…/pₙ)`
  corresponds to the component list `[p₁, …, pₙ]`, and this identification is
  a bijection as long as entry names are nonempty and contain no slash
  (`nameOk` below).
* Relative-path STRINGS are kept as genuine strings wherever the Python code
  manipulates them as strings: the watch sets `_watch_dirs` / `_watch_files`
  are `Finset String` (the constructor stores the absolute root string
  `dir_path` in the same set as the relative paths, and the Removed handler
  compares them with `str.startswith`), and the `sync` action carries those
  string sets verbatim.  The string for the component path `[p₁, …, pₙ]` is
  `p₁ ++ "/" ++ … ++ "/" ++ pₙ`, built by `childRel` exactly as
  `posixpath.relpath(posixpath.join(cur, item), root)` builds it during the
  walks.
* Fallible filesystem primitives return `Except Err _`; a Python exception
  corresponds to an `.error` value, and a bare `except: pass` corresponds to
  discarding the `Except` and keeping the pre-call state (the wrapped calls
  mutate nothing before raising).
-/

deriving instance DecidableEq for Except

namespace Repl

/-- Error kinds surfaced by the external `FileSystem` collaborator.  The
state-based model below only ever produces `notFound` and `other`;
`permissionDenied` and `diskFull` exist to talk about the error-handling
claims. -/
inductive Err where
  | notFound
  | permissionDenied
  | diskFull
  | other
deriving DecidableEq, Repr

/-- A filesystem tree: a file with its content, or a directory with an
ordered list of named children. -/
inductive Node where
  | file (content : String) : Node
  | dir (children : List (String × Node)) : Node
deriving Repr

/-- Component paths: `[p₁, …, pₙ]` stands for the string `p₁/…/pₙ` relative
to the root (so `[]` is the root itself). -/
abbrev Path := List String

/-- Look up a name in a directory's children (first match, like a real
directory where names are unique). -/
def lookupChild : List (String × Node) → String → Option Node
  | [], _ => none
  | (s', n') :: cs, s => if s' = s then some n' else lookupChild cs s

/-- Replace the first binding of `s`, or append a fresh one at the end
(new directory entries appear after existing ones). -/
def setChild : List (String × Node) → String → Node → List (String × Node)
  | [], s, n => [(s, n)]
  | (s', n') :: cs, s, n =>
      if s' = s then (s, n) :: cs else (s', n') :: setChild cs s n

/-- Remove the first binding of `s`. -/
def removeChild : List (String × Node) → String → List (String × Node)
  | [], _ => []
  | (s', n') :: cs, s => if s' = s then cs else (s', n') :: removeChild cs s

/-- Resolve a component path in a tree. -/
def lookupN : Node → Path → Option Node
  | n, [] => some n
  | Node.file _, _ :: _ => none
  | Node.dir cs, s :: rest =>
    match lookupChild cs s with
    | some c => lookupN c rest
    | none => none

/-- `fs.exists(path)`. -/
def existsP (t : Node) (p : Path) : Bool := (lookupN t p).isSome

/-- `fs.isdir(path)` (false when the path is missing). -/
def isdirP (t : Node) (p : Path) : Bool :=
  match lookupN t p with
  | some (Node.dir _) => true
  | _ => false

/-- Whether a path resolves to a file. -/
def isfileP (t : Node) (p : Path) : Bool :=
  match lookupN t p with
  | some (Node.file _) => true
  | _ => false

/-- `fs.readfile(path)`: the content of the file at `path`, `notFound` when
the path is missing, an error when it is a directory. -/
def readfileP (t : Node) (p : Path) : Except Err String :=
  match lookupN t p with
  | some (Node.file c) => .ok c
  | some (Node.dir _) => .error .other
  | none => .error .notFound

/-- `fs.writefile(path, content)`: create or overwrite the file at `path`;
errors when the parent chain does not lead to a directory, or when the path
itself is currently a directory, or when `path` is the root. -/
def writefileP : Node → Path → String → Except Err Node
  | Node.dir cs, [s], c =>
    match lookupChild cs s with
    | some (Node.dir _) => .error .other
    | _ => .ok (Node.dir (setChild cs s (Node.file c)))
  | Node.dir cs, s :: s' :: rest, c =>
    match lookupChild cs s with
    | some child =>
      match writefileP child (s' :: rest) c with
      | .ok child' => .ok (Node.dir (setChild cs s child'))
      | .error e => .error e
    | none => .error .notFound
  | Node.file _, _ :: _, _ => .error .notFound
  | _, [], _ => .error .other

/-- `fs.removefile(path)`: remove the file at `path`; `notFound` when the
path is missing, an error when it is a directory or the root. -/
def removefileP : Node → Path → Except Err Node
  | Node.dir cs, [s] =>
    match lookupChild cs s with
    | some (Node.file _) => .ok (Node.dir (removeChild cs s))
    | some (Node.dir _) => .error .other
    | none => .error .notFound
  | Node.dir cs, s :: s' :: rest =>
    match lookupChild cs s with
    | some child =>
      match removefileP child (s' :: rest) with
      | .ok child' => .ok (Node.dir (setChild cs s child'))
      | .error e => .error e
    | none => .error .notFound
  | Node.file _, _ :: _ => .error .notFound
  | _, [] => .error .other

/-- `fs.removedir(path)`: recursively remove the directory at `path`;
`notFound` when the path is missing, an error when it is a file or the
root. -/
def removedirP : Node → Path → Except Err Node
  | Node.dir cs, [s] =>
    match lookupChild cs s with
    | some (Node.dir _) => .ok (Node.dir (removeChild cs s))
    | some (Node.file _) => .error .other
    | none => .error .notFound
  | Node.dir cs, s :: s' :: rest =>
    match lookupChild cs s with
    | some child =>
      match removedirP child (s' :: rest) with
      | .ok child' => .ok (Node.dir (setChild cs s child'))
      | .error e => .error e
    | none => .error .notFound
  | Node.file _, _ :: _ => .error .notFound
  | _, [] => .error .other

/-- `fs.makedirs(path)`: create the directory at `path` together with any
missing ancestors; errors when some component already exists as a file. -/
def makedirsP : Node → Path → Except Err Node
  | n@(Node.dir _), [] => .ok n
  | Node.file _, [] => .error .other
  | Node.dir cs, s :: rest =>
    match lookupChild cs s with
    | some child =>
      match makedirsP child rest with
      | .ok child' => .ok (Node.dir (setChild cs s child'))
      | .error e => .error e
    | none =>
      match makedirsP (Node.dir []) rest with
      | .ok child' => .ok (Node.dir (setChild cs s child'))
      | .error e => .error e
  | Node.file _, _ :: _ => .error .other

/-- `posixpath.relpath(posixpath.join(cur, name), root)` when `cur` is at
relative path `rel`: `name` at the top level, `rel ++ "/" ++ name` below. -/
def childRel (rel name : String) : String :=
  if rel = "" then name else rel ++ "/" ++ name

/-- The relative-path string of a component path (`""` for the root). -/
def relOfSegs (segs : Path) : String := segs.foldl childRel ""

/-- A usable entry name: nonempty and without a slash (what makes the
string/component-list identification of paths a bijection). -/
def nameOk (s : String) : Bool := s ≠ "" && !s.data.contains '/'

/-- Python's `s.startswith(pre)`: the first `len(pre)` characters of `s` are
exactly `pre`.  (Stated over the character lists, which is the semantics of
`str.startswith`.) -/
def startswith (s pre : String) : Bool := s.data.take pre.data.length == pre.data

mutual
/-- Well-formed tree: every directory's child names are usable and
pairwise distinct. -/
def wfNode : Node → Bool
  | Node.file _ => true
  | Node.dir cs => wfChildren cs

/-- Well-formedness of a children list (see `wfNode`). -/
def wfChildren : List (String × Node) → Bool
  | [] => true
  | (name, child) :: rest =>
      nameOk name && wfNode child && rest.all (fun c => c.1 != name) &&
        wfChildren rest
end

mutual
/-- The relative-path strings of all directories strictly below a node that
sits at relative path `rel` (observation used to state the claims). -/
def dirRels (rel : String) : Node → Finset String
  | Node.file _ => ∅
  | Node.dir cs => dirRelsC rel cs

/-- `dirRels` on a children list. -/
def dirRelsC (rel : String) : List (String × Node) → Finset String
  | [] => ∅
  | (name, child) :: rest => dirRelsItem (childRel rel name) child ∪ dirRelsC rel rest

/-- The directory relative paths contributed by one child sitting at relative
path `r`: the child's own path when it is a directory, plus everything below
it. -/
def dirRelsItem (r : String) : Node → Finset String
  | Node.file _ => ∅
  | Node.dir cs => insert r (dirRelsC r cs)
end

mutual
/-- The relative-path strings of all files strictly below a node at relative
path `rel`. -/
def fileRels (rel : String) : Node → Finset String
  | Node.file _ => ∅
  | Node.dir cs => fileRelsC rel cs

/-- `fileRels` on a children list. -/
def fileRelsC (rel : String) : List (String × Node) → Finset String
  | [] => ∅
  | (name, child) :: rest => fileRelsItem (childRel rel name) child ∪ fileRelsC rel rest

/-- The file relative paths contributed by one child sitting at relative
path `r`. -/
def fileRelsItem (r : String) : Node → Finset String
  | Node.file _ => {r}
  | Node.dir cs => fileRelsC r cs
end

/-- The wire actions sent from `ReplicatorSource` to `ReplicatorTarget`.
`write`/`mkdir`/`remove` carry the relative path as its component list; the
`sync` request carries the watch sets as the raw string sets the source
holds (`relative_path: ''` of the sync request is an unused placeholder and
is dropped). -/
inductive Action where
  | write (p : Path) (content : String) : Action
  | mkdir (p : Path) : Action
  | remove (p : Path) : Action
  | sync (dirs files : Finset String) : Action
deriving DecidableEq

/-- The mutable watch state of `ReplicatorSource`: `_watch_dirs` and
`_watch_files`. -/
structure SrcState where
  watch_dirs : Finset String
  watch_files : Finset String
deriving DecidableEq

mutual
/-- `ReplicatorSource._replicate_directory`, walking the children `cs` of the
source directory at component path `segs` / relative path `rel`: one
`repItem` per loop iteration, in `listdir` order.  Returns the emitted
actions in order together with the updated watch state.  (Reading a listed
child from the source tree cannot fail, so the walk is total.) -/
def repChildren (segs : Path) (rel : String) :
    List (String × Node) → SrcState → List Action × SrcState
  | [], s => ([], s)
  | (name, child) :: rest, s =>
    let q1 := repItem (segs ++ [name]) (childRel rel name) child s
    let q2 := repChildren segs rel rest q1.2
    (q1.1 ++ q2.1, q2.2)

/-- One iteration of the `_replicate_directory` loop on the item at component
path `ps` / relative path `r`: for a subdirectory emit `mkdir`, add it to
`_watch_dirs`, register the watch (external, no model state) and recurse;
for a file read it and emit `write`, adding it to `_watch_files`. -/
def repItem (ps : Path) (r : String) : Node → SrcState → List Action × SrcState
  | Node.dir cs, s =>
    let q := repChildren ps r cs { s with watch_dirs := insert r s.watch_dirs }
    (Action.mkdir ps :: q.1, q.2)
  | Node.file c, s =>
    ([Action.write ps c], { s with watch_files := insert r s.watch_files })
end

/-- `ReplicatorSource.__init__`: watch-set creation, `_watch_dirs.add(dir_path)`
(the ABSOLUTE root path string), the initial recursive walk, and the final
`sync` request advertising the current watch sets.  The source root is a
directory with children `cs`. -/
def initSource (dir_path : String) (cs : List (String × Node)) :
    List Action × SrcState :=
  let q := repChildren [] "" cs ⟨{dir_path}, ∅⟩
  (q.1 ++ [Action.sync q.2.watch_dirs q.2.watch_files], q.2)

/-- The three event kinds of `FileSystemEventType`. -/
inductive EventType where
  | added
  | modified
  | removed
deriving DecidableEq, Repr

/-- `ReplicatorSource.handle_event` on the event `(etype, segs)` where `segs`
is the component path of `event.path` under the root (so its relative-path
string is `relOfSegs segs`).  Returns the actions passed to `rpc_handle`, in
order, and the updated watch state; a `.error` is an uncaught Python
exception propagating out of the handler.

Faithful quirks of the source: in the Added branch the single
`self._rpc_handle(request)` call sits AFTER the if/else, so for a directory
the `mkdir` request is sent only after `_replicate_directory` has already
sent the actions for the directory's contents, and
`self._watch_files.add(relative_path)` then runs for directories as well;
the Removed branch filters `_watch_dirs` with the raw string test
`path.startswith(relative_path)` and removes at most the exact match from
`_watch_files`; `unwatchdir` failures are swallowed by `except: pass`. -/
def handle_event (fs : Node) (s : SrcState) (etype : EventType) (segs : Path) :
    Except Err (List Action × SrcState) :=
  let rel := relOfSegs segs
  match etype with
  | .added =>
    if isdirP fs segs then
      let s1 : SrcState := { s with watch_dirs := insert rel s.watch_dirs }
      let q :=
        match lookupN fs segs with
        | some (Node.dir cs) => repChildren segs rel cs s1
        | _ => ([], s1)
      .ok (q.1 ++ [Action.mkdir segs],
           { q.2 with watch_files := insert rel q.2.watch_files })
    else
      match readfileP fs segs with
      | .ok content =>
        let s1 : SrcState := { s with watch_files := insert rel s.watch_files }
        .ok ([Action.write segs content], s1)
      | .error e => .error e
  | .modified =>
    match readfileP fs segs with
    | .ok content => .ok ([Action.write segs content], s)
    | .error e => .error e
  | .removed =>
    let removePaths := s.watch_dirs.filter (fun path => startswith path rel = true)
    let dirs' := s.watch_dirs \ removePaths
    let files' := s.watch_files.erase rel
    .ok ([Action.remove segs], ⟨dirs', files'⟩)

mutual
/-- `ReplicatorTarget._sync_directory` at the directory sitting at relative
path `rel`: files survive iff their relative path is in `files`, directories
are removed outright when their relative path is not in `dirs` and recursed
into otherwise.  The Python loop iterates over a `listdir` snapshot and each
iteration only mutates the subtree of its own item, so the loop is a
per-child transformation. -/
def syncNode (dirs files : Finset String) (rel : String) : Node → Node
  | Node.file c => Node.file c
  | Node.dir cs => Node.dir (syncChildren dirs files rel cs)

/-- `syncNode` on a children list. -/
def syncChildren (dirs files : Finset String) (rel : String) :
    List (String × Node) → List (String × Node)
  | [] => []
  | (name, child) :: rest =>
    let r := childRel rel name
    match child with
    | Node.dir cs =>
      if r ∈ dirs then
        (name, syncNode dirs files r (Node.dir cs)) ::
          syncChildren dirs files rel rest
      else syncChildren dirs files rel rest
    | Node.file c =>
      if r ∈ files then (name, Node.file c) :: syncChildren dirs files rel rest
      else syncChildren dirs files rel rest
end

/-- `ReplicatorTarget.handle_request` on the target tree `t`.  The returned
`Bool` records whether a physical `fs.writefile` call was performed.  The two
bare `try/except: pass` blocks of the Python code swallow any error of the
wrapped cleanup call and leave the state as it was.  A resulting `.error` is
an uncaught exception propagating out of `handle_request`. -/
def handleRequest (t : Node) (a : Action) : Except Err (Node × Bool) :=
  match a with
  | .write p content =>
    let target_dir := p.dropLast
    match (if existsP t target_dir then .ok t else makedirsP t target_dir :
        Except Err Node) with
    | .error e => .error e
    | .ok t1 =>
      let t2 := if isdirP t1 p then
          match removedirP t1 p with
          | .ok t' => t'
          | .error _ => t1
        else t1
      if existsP t2 p then
        match readfileP t2 p with
        | .error e => .error e
        | .ok c0 =>
          if c0 ≠ content then
            match writefileP t2 p content with
            | .ok t3 => .ok (t3, true)
            | .error e => .error e
          else .ok (t2, false)
      else
        match writefileP t2 p content with
        | .ok t3 => .ok (t3, true)
        | .error e => .error e
  | .mkdir p =>
    let t1 := if !isdirP t p then
        match removefileP t p with
        | .ok t' => t'
        | .error _ => t
      else t
    if existsP t1 p then .ok (t1, false)
    else
      match makedirsP t1 p with
      | .ok t2 => .ok (t2, false)
      | .error e => .error e
  | .remove p =>
    if existsP t p then
      if isdirP t p then
        match removedirP t p with
        | .ok t' => .ok (t', false)
        | .error e => .error e
      else
        match removefileP t p with
        | .ok t' => .ok (t', false)
        | .error e => .error e
    else .ok (t, false)
  | .sync dirs files => .ok (syncNode dirs files "" t, false)

/-- Apply a list of actions to the target in order, stopping at the first
uncaught error (the blocking RPC discipline: one action fully applied before
the next is sent). -/
def applyActions (t : Node) : List Action → Except Err Node
  | [] => .ok t
  | a :: as =>
    match handleRequest t a with
    | .ok (t', _) => applyActions t' as
    | .error e => .error e

/-- The relative-path strings of the nonempty component-path prefixes of a
path, continuing from base relative path `rel`: `ancRelsAux "" [a, b]` is
`["a", "a/b"]`.  Used to state which ancestors of a path the reconciliation
walk consults. -/
def ancRelsAux (rel : String) : Path → List String
  | [] => []
  | s :: rest => childRel rel s :: ancRelsAux (childRel rel s) rest

/-- Replace the node sitting at an existing component path (used only to
STATE what the walk builds; not part of the embedded code). -/
def setSubtree : Node → Path → Node → Node
  | _, [], m => m
  | Node.dir cs, s :: rest, m =>
    match lookupChild cs s with
    | some c => Node.dir (setChild cs s (setSubtree c rest m))
    | none => Node.dir cs
  | Node.file c, _ :: _, _ => Node.file c

/-- The `mkdir` branch of `ReplicatorTarget.handle_request` with the outcome
of each filesystem-primitive call supplied as a parameter, to talk about
which failures are caught where: `isdirRes`/`removefileRes` are the results
of the two calls inside the bare `try/except: pass` block, `existsRes` the
result of `fs.exists(target_path)` and `makedirsRes` the result of
`fs.makedirs(target_path)` (consulted only when reached).  The `let _ :=`
discards the cleanup outcome — including any error, of any kind — exactly
as the bare `except: pass` does. -/
def mkdirBranchE (isdirRes : Except Err Bool) (removefileRes : Except Err Unit)
    (existsRes : Bool) (makedirsRes : Except Err Unit) : Except Err Unit :=
  let cleanup : Except Err Unit :=
    match isdirRes with
    | .ok d => if !d then removefileRes else .ok ()
    | .error e => .error e
  let _ := cleanup
  if existsRes then .ok () else makedirsRes

/-- The `write` branch of `ReplicatorTarget.handle_request` with the outcome
of each filesystem-primitive call supplied as a parameter:
`existsDirRes` for `fs.exists(target_dir)`, `makedirsRes` for
`fs.makedirs(target_dir)`, `isdirRes`/`removedirRes` for the two calls
inside the bare `try/except: pass` block, `existsRes` for
`fs.exists(target_path)`, `readRes` for `fs.readfile(target_path)` and
`writeRes` for `fs.writefile(target_path, content)`. -/
def writeBranchE (existsDirRes : Bool) (makedirsRes : Except Err Unit)
    (isdirRes : Except Err Bool) (removedirRes : Except Err Unit)
    (existsRes : Bool) (readRes : Except Err String) (content : String)
    (writeRes : Except Err Unit) : Except Err Unit :=
  match (if existsDirRes then .ok () else makedirsRes : Except Err Unit) with
  | .error e => .error e
  | .ok _ =>
    let cleanup : Except Err Unit :=
      match isdirRes with
      | .ok d => if d then removedirRes else .ok ()
      | .error e => .error e
    let _ := cleanup
    if !existsRes then writeRes
    else
      match readRes with
      | .error e => .error e
      | .ok c0 => if c0 ≠ content then writeRes else .ok ()

theorem lookupChild_setChild (cs : List (String × Node)) (s : String) (m : Node) :
    lookupChild (setChild cs s m) s = some m := by
  induction cs with
  | nil => simp [setChild, lookupChild]
  | cons hd tl ih =>
    obtain ⟨s', n'⟩ := hd
    by_cases h : s' = s
    · simp [setChild, h, lookupChild]
    · simp [setChild, h, lookupChild, ih]

theorem lookupChild_setChild_ne (cs : List (String × Node)) (s s' : String)
    (m : Node) (h : s' ≠ s) :
    lookupChild (setChild cs s m) s' = lookupChild cs s' := by
  induction cs with
  | nil => simp [setChild, lookupChild, Ne.symm h]
  | cons hd tl ih =>
    obtain ⟨a, b⟩ := hd
    by_cases ha : a = s
    · subst ha
      simp [setChild, lookupChild, Ne.symm h]
    · simp [setChild, ha, lookupChild, ih]

theorem setChild_fresh (cs : List (String × Node)) (s : String) (m : Node)
    (h : lookupChild cs s = none) : setChild cs s m = cs ++ [(s, m)] := by
  induction cs with
  | nil => simp [setChild]
  | cons hd tl ih =>
    obtain ⟨a, b⟩ := hd
    by_cases ha : a = s
    · simp [lookupChild, ha] at h
    · simp [lookupChild, ha] at h
      simp [setChild, ha, ih h]

theorem setChild_self (cs : List (String × Node)) (s : String) (c : Node)
    (h : lookupChild cs s = some c) : setChild cs s c = cs := by
  induction cs with
  | nil => simp [lookupChild] at h
  | cons hd tl ih =>
    obtain ⟨a, b⟩ := hd
    by_cases ha : a = s
    · simp [lookupChild, ha] at h
      simp [setChild, ha, h]
    · simp [lookupChild, ha] at h
      simp [setChild, ha, ih h]

theorem lookupChild_append_fresh (cs : List (String × Node)) (s : String)
    (m : Node) (h : lookupChild cs s = none) :
    lookupChild (cs ++ [(s, m)]) s = some m := by
  induction cs with
  | nil => simp [lookupChild]
  | cons hd tl ih =>
    obtain ⟨a, b⟩ := hd
    by_cases ha : a = s
    · simp [lookupChild, ha] at h
    · simp [lookupChild, ha] at h
      simp [lookupChild, ha, ih h]

theorem lookupChild_none_iff (cs : List (String × Node)) (s : String) :
    lookupChild cs s = none ↔ ∀ c ∈ cs, c.1 ≠ s := by
  induction cs with
  | nil => simp [lookupChild]
  | cons hd tl ih =>
    obtain ⟨a, b⟩ := hd
    by_cases ha : a = s
    · simp [lookupChild, ha]
    · simp [lookupChild, ha, ih]

theorem lookupChild_removeChild_ne (cs : List (String × Node)) (s s' : String)
    (h : s' ≠ s) : lookupChild (removeChild cs s) s' = lookupChild cs s' := by
  induction cs with
  | nil => simp [removeChild]
  | cons hd tl ih =>
    obtain ⟨a, b⟩ := hd
    by_cases ha : a = s
    · subst ha
      simp [removeChild, lookupChild, Ne.symm h]
    · simp [removeChild, ha, lookupChild, ih]

theorem wfChildren_pairwise (cs : List (String × Node))
    (h : wfChildren cs = true) : cs.Pairwise (fun a b => a.1 ≠ b.1) := by
  induction cs with
  | nil => simp
  | cons hd tl ih =>
    obtain ⟨a, b⟩ := hd
    simp only [wfChildren, Bool.and_eq_true] at h
    refine List.Pairwise.cons ?_ (ih h.2)
    intro c hc
    have := List.all_eq_true.mp h.1.2 c hc
    simp only [bne_iff_ne, ne_eq] at this
    exact fun hh => this hh.symm

theorem lookupChild_removeChild_self (cs : List (String × Node)) (s : String)
    (hnd : cs.Pairwise (fun a b => a.1 ≠ b.1)) :
    lookupChild (removeChild cs s) s = none := by
  induction cs with
  | nil => simp [removeChild, lookupChild]
  | cons hd tl ih =>
    obtain ⟨a, b⟩ := hd
    rcases List.pairwise_cons.mp hnd with ⟨hhd, htl⟩
    by_cases ha : a = s
    · subst ha
      rw [removeChild, if_pos rfl, lookupChild_none_iff]
      intro c hc
      exact fun hh => hhd c hc hh.symm
    · simp [removeChild, ha, lookupChild, ih htl]

theorem lookupN_append (t : Node) (qs rs : Path) :
    lookupN t (qs ++ rs) = (lookupN t qs).bind fun n => lookupN n rs := by
  induction qs generalizing t with
  | nil => simp [lookupN]
  | cons s qs ih =>
    cases t with
    | file c => simp [lookupN]
    | dir cs =>
      cases h : lookupChild cs s with
      | none => simp [lookupN, h]
      | some c => simp [lookupN, h, ih]

theorem setChild_setChild (cs : List (String × Node)) (s : String) (a b : Node) :
    setChild (setChild cs s a) s b = setChild cs s b := by
  induction cs with
  | nil => simp [setChild]
  | cons hd tl ih =>
    obtain ⟨x, y⟩ := hd
    by_cases hx : x = s
    · simp [setChild, hx]
    · simp [setChild, hx, ih]

theorem setSubtree_self (t : Node) (qs : Path) (n : Node)
    (h : lookupN t qs = some n) : setSubtree t qs n = t := by
  induction qs generalizing t with
  | nil =>
    simp only [lookupN, Option.some.injEq] at h
    simp [setSubtree, h]
  | cons s qs ih =>
    cases t with
    | file c => simp [lookupN] at h
    | dir cs =>
      cases hc : lookupChild cs s with
      | none => simp [lookupN, hc] at h
      | some c =>
        simp only [lookupN, hc] at h
        simp [setSubtree, hc, ih c h, setChild_self cs s c hc]

theorem lookupN_setSubtree (t : Node) (qs : Path) (n m : Node)
    (h : lookupN t qs = some n) : lookupN (setSubtree t qs m) qs = some m := by
  induction qs generalizing t with
  | nil => simp [setSubtree, lookupN]
  | cons s qs ih =>
    cases t with
    | file c => simp [lookupN] at h
    | dir cs =>
      cases hc : lookupChild cs s with
      | none => simp [lookupN, hc] at h
      | some c =>
        simp only [lookupN, hc] at h
        simp [setSubtree, hc, lookupN, lookupChild_setChild, ih c h]

theorem setSubtree_setSubtree (t : Node) (qs : Path) (n m m' : Node)
    (h : lookupN t qs = some n) :
    setSubtree (setSubtree t qs m) qs m' = setSubtree t qs m' := by
  induction qs generalizing t with
  | nil => simp [setSubtree]
  | cons s qs ih =>
    cases t with
    | file c => simp [lookupN] at h
    | dir cs =>
      cases hc : lookupChild cs s with
      | none => simp [lookupN, hc] at h
      | some c =>
        simp only [lookupN, hc] at h
        simp [setSubtree, hc, lookupChild_setChild, setChild_setChild, ih c h]

theorem setSubtree_append (qs : Path) (s : String) :
    ∀ (t : Node) (ds : List (String × Node)) (c m : Node),
    lookupN t qs = some (Node.dir ds) → lookupChild ds s = some c →
    setSubtree t (qs ++ [s]) m = setSubtree t qs (Node.dir (setChild ds s m)) := by
  induction qs with
  | nil =>
    intro t ds c m h hc
    obtain rfl : t = Node.dir ds := by simpa [lookupN] using h
    simp [setSubtree, hc]
  | cons q qs ih =>
    intro t ds c m h hc
    cases t with
    | file c0 => simp [lookupN] at h
    | dir cs =>
      cases hq : lookupChild cs q with
      | none => simp [lookupN, hq] at h
      | some c' =>
        simp only [lookupN, hq] at h
        simp [setSubtree, hq, ih c' ds c m h hc]

theorem makedirsP_fresh (qs : Path) (s : String) :
    ∀ (t : Node) (ds : List (String × Node)),
    lookupN t qs = some (Node.dir ds) → lookupChild ds s = none →
    makedirsP t (qs ++ [s]) =
      .ok (setSubtree t qs (Node.dir (ds ++ [(s, Node.dir [])]))) := by
  induction qs with
  | nil =>
    intro t ds h hc
    obtain rfl : t = Node.dir ds := by simpa [lookupN] using h
    simp [makedirsP, hc, setChild_fresh _ _ _ hc, setSubtree]
  | cons q qs ih =>
    intro t ds h hc
    cases t with
    | file c0 => simp [lookupN] at h
    | dir cs =>
      cases hq : lookupChild cs q with
      | none => simp [lookupN, hq] at h
      | some c' =>
        simp only [lookupN, hq] at h
        simp [makedirsP, hq, ih c' ds h hc, setSubtree]

theorem writefileP_fresh (qs : Path) (s : String) :
    ∀ (t : Node) (ds : List (String × Node)) (c : String),
    lookupN t qs = some (Node.dir ds) → lookupChild ds s = none →
    writefileP t (qs ++ [s]) c =
      .ok (setSubtree t qs (Node.dir (ds ++ [(s, Node.file c)]))) := by
  induction qs with
  | nil =>
    intro t ds c h hc
    obtain rfl : t = Node.dir ds := by simpa [lookupN] using h
    simp [writefileP, hc, setChild_fresh _ _ _ hc, setSubtree]
  | cons q qs ih =>
    intro t ds c h hc
    cases t with
    | file c0 => simp [lookupN] at h
    | dir cs =>
      cases hq : lookupChild cs q with
      | none => simp [lookupN, hq] at h
      | some c' =>
        simp only [lookupN, hq] at h
        have hrec := ih c' ds c h hc
        obtain ⟨s1, rest1, hqs⟩ : ∃ s1 rest1, qs ++ [s] = s1 :: rest1 := by
          cases qs with
          | nil => exact ⟨s, [], rfl⟩
          | cons a b => exact ⟨a, b ++ [s], rfl⟩
        rw [hqs] at hrec
        rw [List.cons_append, hqs]
        simp [writefileP, hq, hrec, setSubtree]

theorem removefileP_missing (p : Path) :
    ∀ t : Node, lookupN t p = none → ∃ e, removefileP t p = .error e := by
  induction p with
  | nil => intro t h; simp [lookupN] at h
  | cons s rest ih =>
    intro t h
    cases t with
    | file c => cases rest <;> exact ⟨.notFound, rfl⟩
    | dir cs =>
      cases hc : lookupChild cs s with
      | none =>
        cases rest <;> simp [removefileP, hc]
      | some c =>
        simp only [lookupN, hc] at h
        cases rest with
        | nil => simp [lookupN] at h
        | cons s' rest' =>
          obtain ⟨e, he⟩ := ih c h
          exact ⟨e, by simp [removefileP, hc, he]⟩

theorem removedirP_missing (p : Path) :
    ∀ t : Node, lookupN t p = none → ∃ e, removedirP t p = .error e := by
  induction p with
  | nil => intro t h; simp [lookupN] at h
  | cons s rest ih =>
    intro t h
    cases t with
    | file c => cases rest <;> exact ⟨.notFound, rfl⟩
    | dir cs =>
      cases hc : lookupChild cs s with
      | none =>
        cases rest <;> simp [removedirP, hc]
      | some c =>
        simp only [lookupN, hc] at h
        cases rest with
        | nil => simp [lookupN] at h
        | cons s' rest' =>
          obtain ⟨e, he⟩ := ih c h
          exact ⟨e, by simp [removedirP, hc, he]⟩

theorem removefileP_at (qs : Path) (s : String) :
    ∀ (t : Node) (ds : List (String × Node)) (c0 : String),
    lookupN t qs = some (Node.dir ds) → lookupChild ds s = some (Node.file c0) →
    removefileP t (qs ++ [s]) = .ok (setSubtree t qs (Node.dir (removeChild ds s))) := by
  induction qs with
  | nil =>
    intro t ds c0 h hc
    obtain rfl : t = Node.dir ds := by simpa [lookupN] using h
    simp [removefileP, hc, setSubtree]
  | cons q qs ih =>
    intro t ds c0 h hc
    cases t with
    | file c1 => simp [lookupN] at h
    | dir cs =>
      cases hq : lookupChild cs q with
      | none => simp [lookupN, hq] at h
      | some c' =>
        simp only [lookupN, hq] at h
        have hrec := ih c' ds c0 h hc
        obtain ⟨s1, rest1, hqs⟩ : ∃ s1 rest1, qs ++ [s] = s1 :: rest1 := by
          cases qs with
          | nil => exact ⟨s, [], rfl⟩
          | cons a b => exact ⟨a, b ++ [s], rfl⟩
        rw [hqs] at hrec
        rw [List.cons_append, hqs]
        simp [removefileP, hq, hrec, setSubtree]

theorem removedirP_at (qs : Path) (s : String) :
    ∀ (t : Node) (ds ccs : List (String × Node)),
    lookupN t qs = some (Node.dir ds) → lookupChild ds s = some (Node.dir ccs) →
    removedirP t (qs ++ [s]) = .ok (setSubtree t qs (Node.dir (removeChild ds s))) := by
  induction qs with
  | nil =>
    intro t ds ccs h hc
    obtain rfl : t = Node.dir ds := by simpa [lookupN] using h
    simp [removedirP, hc, setSubtree]
  | cons q qs ih =>
    intro t ds ccs h hc
    cases t with
    | file c1 => simp [lookupN] at h
    | dir cs =>
      cases hq : lookupChild cs q with
      | none => simp [lookupN, hq] at h
      | some c' =>
        simp only [lookupN, hq] at h
        have hrec := ih c' ds ccs h hc
        obtain ⟨s1, rest1, hqs⟩ : ∃ s1 rest1, qs ++ [s] = s1 :: rest1 := by
          cases qs with
          | nil => exact ⟨s, [], rfl⟩
          | cons a b => exact ⟨a, b ++ [s], rfl⟩
        rw [hqs] at hrec
        rw [List.cons_append, hqs]
        simp [removedirP, hq, hrec, setSubtree]

theorem lookupN_concat_some (t : Node) (qs : Path) (s : String) (n : Node)
    (h : lookupN t (qs ++ [s]) = some n) :
    ∃ ds, lookupN t qs = some (Node.dir ds) ∧ lookupChild ds s = some n := by
  rw [lookupN_append] at h
  cases hq : lookupN t qs with
  | none => rw [hq] at h; simp at h
  | some m =>
    rw [hq] at h
    cases m with
    | file c => simp [lookupN] at h
    | dir ds =>
      cases hc : lookupChild ds s with
      | none => simp [lookupN, hc] at h
      | some c =>
        have hcn : c = n := by simpa [lookupN, hc] using h
        exact ⟨ds, rfl, by rw [hc, hcn]⟩

theorem setChild_append_fresh (cs : List (String × Node)) (s : String) (a b : Node)
    (h : lookupChild cs s = none) :
    setChild (cs ++ [(s, a)]) s b = cs ++ [(s, b)] := by
  induction cs with
  | nil => simp [setChild]
  | cons hd tl ih =>
    obtain ⟨x, y⟩ := hd
    by_cases hx : x = s
    · simp [lookupChild, hx] at h
    · simp [lookupChild, hx] at h
      simp [setChild, hx, ih h]

theorem applyActions_append (t : Node) (as bs : List Action) :
    applyActions t (as ++ bs) =
      match applyActions t as with
      | .ok t' => applyActions t' bs
      | .error e => .error e := by
  induction as generalizing t with
  | nil => simp [applyActions]
  | cons a as ih =>
    simp only [List.cons_append, applyActions]
    cases h : handleRequest t a with
    | ok r => simp [ih]
    | error e => simp

mutual
theorem repChildren_sets :
    ∀ (cs : List (String × Node)) (segs : Path) (rel : String) (s : SrcState),
    (repChildren segs rel cs s).2.watch_dirs = s.watch_dirs ∪ dirRelsC rel cs ∧
    (repChildren segs rel cs s).2.watch_files = s.watch_files ∪ fileRelsC rel cs
  | [], segs, rel, s => by
    simp [repChildren, dirRelsC, fileRelsC]
  | (name, child) :: rest, segs, rel, s => by
    have h1 := repItem_sets child (segs ++ [name]) (childRel rel name) s
    have h2 := repChildren_sets rest segs rel
      (repItem (segs ++ [name]) (childRel rel name) child s).2
    simp only [repChildren, dirRelsC, fileRelsC]
    refine ⟨?_, ?_⟩
    · rw [h2.1, h1.1, Finset.union_assoc]
    · rw [h2.2, h1.2, Finset.union_assoc]

theorem repItem_sets :
    ∀ (n : Node) (ps : Path) (r : String) (s : SrcState),
    (repItem ps r n s).2.watch_dirs = s.watch_dirs ∪ dirRelsItem r n ∧
    (repItem ps r n s).2.watch_files = s.watch_files ∪ fileRelsItem r n
  | Node.dir cs, ps, r, s => by
    have h := repChildren_sets cs ps r { s with watch_dirs := insert r s.watch_dirs }
    simp only [repItem, dirRelsItem, fileRelsItem]
    refine ⟨?_, ?_⟩
    · rw [h.1]
      simp [Finset.insert_union]
    · rw [h.2]
  | Node.file c, ps, r, s => by
    simp only [repItem, dirRelsItem, fileRelsItem]
    refine ⟨by simp, ?_⟩
    rw [Finset.insert_eq, Finset.union_comm]
end

mutual
theorem applyActions_repChildren :
    ∀ (cs : List (String × Node)) (segs : Path) (rel : String) (s : SrcState)
      (t : Node) (ds : List (String × Node)),
    wfChildren cs = true →
    lookupN t segs = some (Node.dir ds) →
    (∀ c ∈ cs, lookupChild ds c.1 = none) →
    applyActions t (repChildren segs rel cs s).1 =
      .ok (setSubtree t segs (Node.dir (ds ++ cs)))
  | [], segs, rel, s, t, ds, hwf, ht, hfresh => by
    simp [repChildren, applyActions, setSubtree_self t segs _ ht]
  | (name, child) :: rest, segs, rel, s, t, ds, hwf, ht, hfresh => by
    simp only [wfChildren, Bool.and_eq_true] at hwf
    have hitem := applyActions_repItem child segs name (childRel rel name) s t ds
      hwf.1.1.2 ht (hfresh (name, child) (by simp))
    have hfresh' : ∀ c ∈ rest, lookupChild (ds ++ [(name, child)]) c.1 = none := by
      intro c hc
      rw [lookupChild_none_iff]
      intro d hd
      rcases List.mem_append.mp hd with hd | hd
      · have := (lookupChild_none_iff ds c.1).mp (hfresh c (by simp [hc])) d hd
        exact this
      · simp only [List.mem_singleton] at hd
        subst hd
        have hne : c.1 ≠ name := by
          simpa [bne_iff_ne] using List.all_eq_true.mp hwf.1.2 c hc
        exact fun hh => hne hh.symm
    have hrest := applyActions_repChildren rest segs rel
      (repItem (segs ++ [name]) (childRel rel name) child s).2
      (setSubtree t segs (Node.dir (ds ++ [(name, child)])))
      (ds ++ [(name, child)]) hwf.2
      (lookupN_setSubtree t segs _ _ ht) hfresh'
    simp only [repChildren]
    rw [applyActions_append, hitem]
    dsimp only
    rw [hrest, setSubtree_setSubtree t segs _ _ _ ht]
    simp [List.append_assoc]

theorem applyActions_repItem :
    ∀ (n : Node) (segs : Path) (name : String) (r : String) (s : SrcState)
      (t : Node) (ds : List (String × Node)),
    wfNode n = true →
    lookupN t segs = some (Node.dir ds) →
    lookupChild ds name = none →
    applyActions t (repItem (segs ++ [name]) r n s).1 =
      .ok (setSubtree t segs (Node.dir (ds ++ [(name, n)])))
  | Node.file c, segs, name, r, s, t, ds, hwf, ht, hfresh => by
    have hmiss : lookupN t (segs ++ [name]) = none := by
      rw [lookupN_append, ht]
      simp [lookupN, hfresh]
    have hwr := writefileP_fresh segs name t ds c ht hfresh
    simp only [repItem, applyActions, handleRequest]
    rw [List.dropLast_concat]
    simp only [existsP, ht, Option.isSome_some, if_true, isdirP, hmiss,
      Option.isSome_none, Bool.false_eq_true, if_false, hwr]
  | Node.dir ccs, segs, name, r, s, t, ds, hwf, ht, hfresh => by
    have hmiss : lookupN t (segs ++ [name]) = none := by
      rw [lookupN_append, ht]
      simp [lookupN, hfresh]
    obtain ⟨e, he⟩ := removefileP_missing (segs ++ [name]) t hmiss
    have hmk := makedirsP_fresh segs name t ds ht hfresh
    have ht1 : lookupN (setSubtree t segs (Node.dir (ds ++ [(name, Node.dir [])])))
        (segs ++ [name]) = some (Node.dir []) := by
      rw [lookupN_append, lookupN_setSubtree t segs _ _ ht]
      simp [lookupN, lookupChild_append_fresh ds name _ hfresh]
    have hch := applyActions_repChildren ccs (segs ++ [name]) r
      { s with watch_dirs := insert r s.watch_dirs }
      (setSubtree t segs (Node.dir (ds ++ [(name, Node.dir [])])))
      [] hwf ht1 (by intro c hc; simp [lookupChild])
    simp only [List.nil_append] at hch
    simp only [repItem, applyActions, handleRequest]
    simp only [isdirP, hmiss, Bool.not_false, if_true, he, existsP,
      Option.isSome_none, Bool.false_eq_true, if_false, hmk]
    rw [hch]
    rw [setSubtree_append segs name
      (setSubtree t segs (Node.dir (ds ++ [(name, Node.dir [])]))) _ _ _
      (lookupN_setSubtree t segs _ _ ht)
      (lookupChild_append_fresh ds name _ hfresh)]
    rw [setChild_append_fresh ds name _ _ hfresh,
      setSubtree_setSubtree t segs _ _ _ ht]
end

theorem nameOk_spec (s : String) (h : nameOk s = true) :
    s ≠ "" ∧ '/' ∉ s.data := by
  simp only [nameOk, Bool.and_eq_true, decide_eq_true_eq] at h
  refine ⟨h.1, ?_⟩
  intro hm
  have hc : s.data.contains '/' = true := by
    rw [List.contains, List.elem_iff]
    exact hm
  rw [hc] at h
  simp at h

theorem childRel_data (rel name : String) (h : rel ≠ "") :
    (childRel rel name).data = rel.data ++ '/' :: name.data := by
  simp only [childRel, if_neg h]
  rw [show ((rel ++ "/") ++ name).data = (rel.data ++ ['/']) ++ name.data from rfl,
    List.append_assoc]
  rfl

theorem childRel_head (rel name : String) (hn : nameOk name = true)
    (h : rel = "" ∨ (rel ≠ "" ∧ rel.data.head? ≠ some '/')) :
    childRel rel name ≠ "" ∧ (childRel rel name).data.head? ≠ some '/' := by
  obtain ⟨hne, hns⟩ := nameOk_spec name hn
  rcases h with h | ⟨hrne, hrh⟩
  · subst h
    have hcr : childRel "" name = name := by simp [childRel]
    rw [hcr]
    refine ⟨hne, ?_⟩
    cases hd : name.data with
    | nil => exact absurd (String.ext hd) hne
    | cons c tail =>
      simp only [List.head?_cons]
      intro hc
      apply hns
      rw [hd]
      have : c = '/' := by simpa using hc
      simp [this]
  · cases hd : rel.data with
    | nil => exact absurd (String.ext hd) hrne
    | cons c tail =>
      have hdata : (childRel rel name).data = c :: (tail ++ '/' :: name.data) := by
        rw [childRel_data rel name hrne, hd]
        rfl
      constructor
      · intro he
        rw [he] at hdata
        simp at hdata
      · rw [hdata]
        simp only [List.head?_cons]
        intro hc
        exact hrh (by rw [hd]; simpa using hc)

mutual
theorem dirRelsC_head :
    ∀ (cs : List (String × Node)) (rel : String), wfChildren cs = true →
    (rel = "" ∨ (rel ≠ "" ∧ rel.data.head? ≠ some '/')) →
    ∀ r ∈ dirRelsC rel cs, r ≠ "" ∧ r.data.head? ≠ some '/'
  | [], rel, hwf, hrel => by simp [dirRelsC]
  | (name, child) :: rest, rel, hwf, hrel => by
    simp only [wfChildren, Bool.and_eq_true] at hwf
    intro r hr
    simp only [dirRelsC, Finset.mem_union] at hr
    rcases hr with hr | hr
    · exact dirRelsItem_head child (childRel rel name) hwf.1.1.2
        (childRel_head rel name hwf.1.1.1 hrel) r hr
    · exact dirRelsC_head rest rel hwf.2 hrel r hr

theorem dirRelsItem_head :
    ∀ (n : Node) (r0 : String), wfNode n = true →
    (r0 ≠ "" ∧ r0.data.head? ≠ some '/') →
    ∀ r ∈ dirRelsItem r0 n, r ≠ "" ∧ r.data.head? ≠ some '/'
  | Node.file c, r0, hwf, h0 => by simp [dirRelsItem]
  | Node.dir ccs, r0, hwf, h0 => by
    intro r hr
    simp only [dirRelsItem, Finset.mem_insert] at hr
    rcases hr with rfl | hr
    · exact h0
    · exact dirRelsC_head ccs r0 (by simpa [wfNode] using hwf) (Or.inr h0) r hr
end

mutual
theorem syncNode_noop :
    ∀ (n : Node) (dirs files : Finset String) (rel : String),
    (∀ r ∈ dirRels rel n, r ∈ dirs) → (∀ r ∈ fileRels rel n, r ∈ files) →
    syncNode dirs files rel n = n
  | Node.file c, dirs, files, rel, hd, hf => rfl
  | Node.dir cs, dirs, files, rel, hd, hf => by
    simp only [syncNode]
    rw [syncChildren_noop cs dirs files rel
      (by simpa [dirRels] using hd) (by simpa [fileRels] using hf)]

theorem syncChildren_noop :
    ∀ (cs : List (String × Node)) (dirs files : Finset String) (rel : String),
    (∀ r ∈ dirRelsC rel cs, r ∈ dirs) → (∀ r ∈ fileRelsC rel cs, r ∈ files) →
    syncChildren dirs files rel cs = cs
  | [], _, _, _, _, _ => rfl
  | (name, child) :: rest, dirs, files, rel, hd, hf => by
    simp only [dirRelsC, Finset.mem_union] at hd
    simp only [fileRelsC, Finset.mem_union] at hf
    cases child with
    | dir ccs =>
      have hin : childRel rel name ∈ dirs :=
        hd _ (Or.inl (by simp [dirRelsItem]))
      simp only [syncChildren]
      rw [if_pos hin]
      rw [syncNode_noop (Node.dir ccs) dirs files (childRel rel name)
        (fun r hr => hd r (Or.inl (by
          simp only [dirRelsItem]
          exact Finset.mem_insert_of_mem (by simpa [dirRels] using hr))))
        (fun r hr => hf r (Or.inl (by simpa [fileRelsItem, fileRels] using hr)))]
      rw [syncChildren_noop rest dirs files rel
        (fun r hr => hd r (Or.inr hr)) (fun r hr => hf r (Or.inr hr))]
    | file c =>
      have hin : childRel rel name ∈ files :=
        hf _ (Or.inl (by simp [fileRelsItem]))
      simp only [syncChildren]
      rw [if_pos hin]
      rw [syncChildren_noop rest dirs files rel
        (fun r hr => hd r (Or.inr hr)) (fun r hr => hf r (Or.inr hr))]
end

theorem initSource_snd (dir_path : String) (cs : List (String × Node)) :
    (initSource dir_path cs).2 = (repChildren [] "" cs ⟨{dir_path}, ∅⟩).2 := rfl

theorem initSource_dirs (dir_path : String) (cs : List (String × Node)) :
    (initSource dir_path cs).2.watch_dirs = {dir_path} ∪ dirRelsC "" cs := by
  rw [initSource_snd]
  exact (repChildren_sets cs [] "" ⟨{dir_path}, ∅⟩).1

theorem initSource_files (dir_path : String) (cs : List (String × Node)) :
    (initSource dir_path cs).2.watch_files = fileRelsC "" cs := by
  rw [initSource_snd]
  have h := (repChildren_sets cs [] "" ⟨{dir_path}, ∅⟩).2
  simpa using h

/-- C1 (amended): running the constructor's action stream — the initial walk
followed by the `sync` request — against an empty target reproduces the
source tree exactly, so the target's file set equals `_watch_files` and the
target's directory set equals `_watch_dirs` MINUS the root entry: the
constructor stores the absolute root string `dir_path` in `_watch_dirs`
rather than the empty relative path, so plain set equality with `_watch_dirs`
fails (see the counterexample). -/
theorem c1_sync_after_init (dir_path : String) (cs : List (String × Node))
    (hwf : wfChildren cs = true) (hdp : dir_path.data.head? = some '/') :
    ∃ T : Node,
      applyActions (Node.dir []) (initSource dir_path cs).1 = .ok T ∧
      fileRels "" T = (initSource dir_path cs).2.watch_files ∧
      dirRels "" T = ((initSource dir_path cs).2.watch_dirs).erase dir_path := by
  have himg := applyActions_repChildren cs [] "" ⟨{dir_path}, ∅⟩ (Node.dir []) []
    hwf (by simp [lookupN]) (by intro c hc; simp [lookupChild])
  simp only [setSubtree, List.nil_append] at himg
  have hnoop : syncNode ((repChildren [] "" cs (⟨{dir_path}, ∅⟩ : SrcState)).2.watch_dirs)
      ((repChildren [] "" cs (⟨{dir_path}, ∅⟩ : SrcState)).2.watch_files) ""
      (Node.dir cs) = Node.dir cs := by
    apply syncNode_noop
    · intro r hr
      rw [← initSource_snd, initSource_dirs]
      exact Finset.mem_union_right _ (by simpa [dirRels] using hr)
    · intro r hr
      rw [← initSource_snd, initSource_files]
      simpa [fileRels] using hr
  refine ⟨Node.dir cs, ?_, ?_, ?_⟩
  · simp only [initSource]
    rw [applyActions_append, himg]
    dsimp only
    simp [applyActions, handleRequest, hnoop]
  · rw [initSource_files]
    rfl
  · rw [initSource_dirs]
    have hnot : dir_path ∉ dirRelsC "" cs := fun hmem =>
      (dirRelsC_head cs "" hwf (Or.inl rfl) _ hmem).2 hdp
    rw [Finset.erase_union_distrib, Finset.erase_singleton,
      Finset.erase_eq_of_not_mem hnot, Finset.empty_union]
    rfl

/-- Witness for C1 at the spec's end-to-end example: root `/src` containing
`docs/a.txt = "hello"`, empty target. -/
theorem c1_sync_after_init_witness :
    ∃ T : Node,
      applyActions (Node.dir [])
        (initSource "/src" [("docs", Node.dir [("a.txt", Node.file "hello")])]).1 =
        .ok T ∧
      fileRels "" T =
        (initSource "/src"
          [("docs", Node.dir [("a.txt", Node.file "hello")])]).2.watch_files ∧
      dirRels "" T =
        ((initSource "/src"
          [("docs", Node.dir [("a.txt", Node.file "hello")])]).2.watch_dirs).erase
          "/src" :=
  c1_sync_after_init "/src" [("docs", Node.dir [("a.txt", Node.file "hello")])]
    (by decide) (by decide)

/-- C1 counterexample: with root `/src` over `docs/a.txt`, the target's
directory set after the walk and `Sync` is `{"docs"}`, while `_watch_dirs`
is `{"/src", "docs"}` — the advertised watch set also contains the absolute
root path, so the two sets are NOT equal as the claim states. -/
theorem c1_counterexample :
    Except.map
        (fun T => decide (dirRels "" T = {"docs"} ∧ fileRels "" T = {"docs/a.txt"}))
        (applyActions (Node.dir [])
          (initSource "/src" [("docs", Node.dir [("a.txt", Node.file "hello")])]).1) =
      .ok true ∧
    (initSource "/src" [("docs", Node.dir [("a.txt", Node.file "hello")])]).2.watch_dirs ≠
      {"docs"} := by
  refine ⟨by decide, by decide⟩

/-- C2: evaluation of the Removed handler at the failing input.  The handler
filters `_watch_dirs` with the raw string test `path.startswith(relative_path)`,
so a `Removed` event for `"a"` also removes the UNRELATED watched directory
`"ab"` (the claim requires `"ab"` to survive, since `"a"` is not a
path-segment ancestor of `"ab"`); the genuine descendant `"a/b"` is removed
and `"keep"` survives, and in `_watch_files` only the exact match `"a"` is
removed while `"ab"` survives. -/
theorem c2_removed_raw_startswith :
    Except.map
        (fun q => (q.1,
          decide ("ab" ∈ q.2.watch_dirs), decide ("a/b" ∈ q.2.watch_dirs),
          decide ("keep" ∈ q.2.watch_dirs),
          decide ("a" ∈ q.2.watch_files), decide ("ab" ∈ q.2.watch_files)))
        (handle_event (Node.dir []) ⟨{"ab", "a/b", "keep", "/r"}, {"a", "ab"}⟩
          EventType.removed ["a"]) =
      .ok ([Action.remove ["a"]], false, false, true, false, true) := by decide

/-- C3: evaluation of the Added-directory handler at the failing input.  The
single `self._rpc_handle(request)` call sits after the if/else of the Added
branch, so for a new directory `d` containing a file `f` the target observes
`Write{d/f}` BEFORE `MkDir{d}` — not after, as the claim states. -/
theorem c3_added_dir_mkdir_after_walk :
    Except.map Prod.fst
        (handle_event (Node.dir [("d", Node.dir [("f", Node.file "x")])])
          ⟨{"/r"}, ∅⟩ EventType.added ["d"]) =
      .ok [Action.write ["d", "f"] "x", Action.mkdir ["d"]] := by decide

/-- C5: evaluation at the failing input.  An `Added` event for a path that
has already vanished reaches `self._fs.readfile(event.path)` with no
try/except around it, so the not-found error propagates out of
`handle_event` instead of being treated as a no-op as the claim states. -/
theorem c5_added_vanished_raises :
    handle_event (Node.dir []) ⟨{"/r"}, ∅⟩ EventType.added ["ghost"] =
      .error Err.notFound := by decide

/-- C9 counterexample: in the `mkdir` branch, a `permissionDenied` failure of
the `fs.removefile` cleanup call is caught by the bare `except: pass` and
`handle_request` returns normally — contradicting the claim that every
failure other than not-found propagates. -/
theorem c9_counterexample :
    mkdirBranchE (.ok false) (.error Err.permissionDenied) false (.ok ()) =
      .ok () := rfl

/-- C9 (amended): the bare `try/except: pass` blocks swallow failures of the
wrapped cleanup calls (`isdir`/`removefile` in `mkdir`, `isdir`/`removedir`
in `write`) REGARDLESS of their kind, while failures of the calls outside
those blocks (`makedirs`, `readfile`, `writefile`) propagate out of
`handle_request`: conjuncts 1 and 3 show arbitrary cleanup outcomes are
absorbed, conjuncts 2, 4 and 5 show `makedirs`, `writefile` and `readfile`
failures of any kind `e` escape. -/
theorem c9_swallow_and_propagate (e : Err) (isdirRes : Except Err Bool)
    (removefileRes removedirRes : Except Err Unit) (c0 content : String) :
    (mkdirBranchE isdirRes removefileRes true (.ok ()) = .ok ()) ∧
    (mkdirBranchE isdirRes removefileRes false (.error e) = .error e) ∧
    (writeBranchE true (.ok ()) isdirRes removedirRes false (.ok c0) content
      (.error e) = .error e) ∧
    (writeBranchE false (.error e) isdirRes removedirRes false (.ok c0) content
      (.ok ()) = .error e) ∧
    (writeBranchE true (.ok ()) isdirRes removedirRes true (.error e) content
      (.ok ()) = .error e) :=
  ⟨rfl, rfl, rfl, rfl, rfl⟩

/-- C10: when an `Added` event reports a directory, the handler adds the
directory's relative path to `_watch_dirs` AND — because
`self._watch_files.add(relative_path)` sits after the if/else — also to
`_watch_files`, so a sync request assembled from the resulting state would
advertise the path in both sets. -/
theorem c10_added_dir_in_both_sets (fs : Node) (s : SrcState) (segs : Path)
    (h : isdirP fs segs = true) :
    ∃ as s', handle_event fs s EventType.added segs = .ok (as, s') ∧
      relOfSegs segs ∈ s'.watch_dirs ∧ relOfSegs segs ∈ s'.watch_files := by
  cases hl : lookupN fs segs with
  | none => simp [isdirP, hl] at h
  | some n =>
    cases n with
    | file c => simp [isdirP, hl] at h
    | dir cs =>
      refine ⟨(repChildren segs (relOfSegs segs) cs
          { s with watch_dirs := insert (relOfSegs segs) s.watch_dirs }).1 ++
          [Action.mkdir segs],
        { (repChildren segs (relOfSegs segs) cs
            { s with watch_dirs := insert (relOfSegs segs) s.watch_dirs }).2 with
          watch_files := insert (relOfSegs segs)
            (repChildren segs (relOfSegs segs) cs
              { s with watch_dirs :=
                  insert (relOfSegs segs) s.watch_dirs }).2.watch_files },
        ?_, ?_, ?_⟩
      · simp [handle_event, h, hl]
      · have hq := (repChildren_sets cs segs (relOfSegs segs)
          { s with watch_dirs := insert (relOfSegs segs) s.watch_dirs }).1
        dsimp only
        rw [hq]
        exact Finset.mem_union_left _ (Finset.mem_insert_self _ _)
      · exact Finset.mem_insert_self _ _

/-- Witness for C10 at a concrete input. -/
theorem c10_added_dir_in_both_sets_witness :
    ∃ as s', handle_event (Node.dir [("d", Node.dir [])]) ⟨{"/r"}, ∅⟩
        EventType.added ["d"] = .ok (as, s') ∧
      relOfSegs ["d"] ∈ s'.watch_dirs ∧ relOfSegs ["d"] ∈ s'.watch_files :=
  c10_added_dir_in_both_sets (Node.dir [("d", Node.dir [])]) ⟨{"/r"}, ∅⟩ ["d"]
    (by decide)

/-- C4 counterexample: after the constructor on root `/r` over `a/f`, the
empty relative path is NOT in `_watch_dirs` (the root is stored as the
absolute string `/r`), and handling a `Removed` event for `a` leaves the
descendant file `a/f` in `_watch_files` while `a` itself leaves
`_watch_dirs` — so the WatchedTree invariant fails after that event. -/
theorem c4_counterexample :
    ("" ∉ (initSource "/r" [("a", Node.dir [("f", Node.file "x")])]).2.watch_dirs) ∧
    Except.map
        (fun q => (decide ("a/f" ∈ q.2.watch_files), decide ("a" ∈ q.2.watch_dirs)))
        (handle_event (Node.dir [])
          (initSource "/r" [("a", Node.dir [("f", Node.file "x")])]).2
          EventType.removed ["a"]) =
      .ok (true, false) :=
  ⟨by decide, by decide⟩

theorem readfileP_ok_lookup (t : Node) (p : Path) (c : String)
    (h : readfileP t p = .ok c) : lookupN t p = some (Node.file c) := by
  cases hl : lookupN t p with
  | none => simp [readfileP, hl] at h
  | some n =>
    cases n with
    | dir cs => simp [readfileP, hl] at h
    | file c0 =>
      have : c0 = c := by simpa [readfileP, hl] using h
      rw [this]

theorem writefileP_ok_lookup :
    ∀ (p : Path) (t t' : Node) (c : String),
    writefileP t p c = .ok t' → lookupN t' p = some (Node.file c) := by
  intro p
  induction p with
  | nil => intro t t' c h; cases t <;> simp [writefileP] at h
  | cons s rest ih =>
    intro t t' c h
    cases t with
    | file c0 => cases rest <;> simp [writefileP] at h
    | dir cs =>
      cases rest with
      | nil =>
        cases hc : lookupChild cs s with
        | none =>
          simp only [writefileP, hc] at h
          rw [show t' = Node.dir (setChild cs s (Node.file c)) from by
            simpa using h.symm]
          simp [lookupN, lookupChild_setChild]
        | some m =>
          cases m with
          | dir ccs => simp [writefileP, hc] at h
          | file c1 =>
            rw [show t' = Node.dir (setChild cs s (Node.file c)) from by
              simpa [writefileP, hc] using h.symm]
            simp [lookupN, lookupChild_setChild]
      | cons s' rest' =>
        cases hc : lookupChild cs s with
        | none => simp [writefileP, hc] at h
        | some child =>
          cases hw : writefileP child (s' :: rest') c with
          | error e => simp [writefileP, hc, hw] at h
          | ok child' =>
            rw [show t' = Node.dir (setChild cs s child') from by
              simpa [writefileP, hc, hw] using h.symm]
            simp [lookupN, lookupChild_setChild, ih child child' c hw]

theorem existsP_dropLast (t : Node) (p : Path) (n : Node)
    (h : lookupN t p = some n) : existsP t p.dropLast = true := by
  rcases List.eq_nil_or_concat p with rfl | ⟨qs, s, rfl⟩
  · simp [existsP, lookupN]
  · obtain ⟨ds, hq, hc⟩ := lookupN_concat_some t qs s n
      (by simpa [List.concat_eq_append] using h)
    simp [List.concat_eq_append, List.dropLast_concat, existsP, hq]

theorem write_noop_of_file (t : Node) (p : Path) (c : String)
    (h : lookupN t p = some (Node.file c)) :
    handleRequest t (Action.write p c) = .ok (t, false) := by
  have hex : existsP t p.dropLast = true := existsP_dropLast t p _ h
  have hnd : isdirP t p = false := by simp [isdirP, h]
  have hexp : existsP t p = true := by simp [existsP, h]
  have hrd : readfileP t p = .ok c := by simp [readfileP, h]
  simp [handleRequest, hex, hnd, hexp, hrd]

theorem write_ok_lookup (t : Node) (p : Path) (c : String) (t1 : Node) (b : Bool)
    (h : handleRequest t (Action.write p c) = .ok (t1, b)) :
    lookupN t1 p = some (Node.file c) := by
  simp only [handleRequest] at h
  cases hst : (if existsP t p.dropLast then (Except.ok t : Except Err Node)
      else makedirsP t p.dropLast) with
  | error e => rw [hst] at h; simp at h
  | ok t0 =>
    rw [hst] at h
    dsimp only at h
    by_cases hex2 : existsP (if isdirP t0 p then
        match removedirP t0 p with
        | .ok t' => t'
        | .error _ => t0
      else t0) p = true
    · rw [if_pos hex2] at h
      cases hrd : readfileP (if isdirP t0 p then
          match removedirP t0 p with
          | .ok t' => t'
          | .error _ => t0
        else t0) p with
      | error e => rw [hrd] at h; simp at h
      | ok c0 =>
        rw [hrd] at h
        dsimp only at h
        by_cases hc0 : c0 ≠ c
        · rw [if_pos hc0] at h
          cases hw : writefileP (if isdirP t0 p then
              match removedirP t0 p with
              | .ok t' => t'
              | .error _ => t0
            else t0) p c with
          | error e => rw [hw] at h; simp at h
          | ok t3 =>
            rw [hw] at h
            simp only [Except.ok.injEq, Prod.mk.injEq] at h
            rw [← h.1]
            exact writefileP_ok_lookup p _ t3 c hw
        · rw [if_neg hc0] at h
          simp only [Except.ok.injEq, Prod.mk.injEq] at h
          push_neg at hc0
          subst hc0
          rw [← h.1]
          exact readfileP_ok_lookup _ p c0 hrd
    · rw [if_neg hex2] at h
      cases hw : writefileP (if isdirP t0 p then
          match removedirP t0 p with
          | .ok t' => t'
          | .error _ => t0
        else t0) p c with
      | error e => rw [hw] at h; simp at h
      | ok t3 =>
        rw [hw] at h
        simp only [Except.ok.injEq, Prod.mk.injEq] at h
        rw [← h.1]
        exact writefileP_ok_lookup p _ t3 c hw

/-- C7: idempotence of `Write` application.  If the target already holds
file `p` with exactly content `c`, `handle_request` performs no physical
`writefile` call (the returned flag is `false`) and leaves the tree
unchanged; consequently applying the same `Write` twice performs a physical
write at most on the first application, the second being a flagless no-op
that returns the same tree. -/
theorem c7_write_idempotent (t : Node) (p : Path) (c : String) :
    (lookupN t p = some (Node.file c) →
      handleRequest t (Action.write p c) = .ok (t, false)) ∧
    (∀ t1 b, handleRequest t (Action.write p c) = .ok (t1, b) →
      handleRequest t1 (Action.write p c) = .ok (t1, false)) :=
  ⟨write_noop_of_file t p c,
   fun t1 b h => write_noop_of_file t1 p c (write_ok_lookup t p c t1 b h)⟩

/-- Witness for C7: a second identical `Write` on a file already holding the
content is a no-op with no physical write. -/
theorem c7_write_idempotent_witness :
    handleRequest (Node.dir [("f", Node.file "x")]) (Action.write ["f"] "x") =
      .ok (Node.dir [("f", Node.file "x")], false) :=
  (c7_write_idempotent (Node.dir [("f", Node.file "x")]) ["f"] "x").1 rfl

theorem wfChildren_lookupChild :
    ∀ (cs : List (String × Node)) (s : String) (c : Node),
    wfChildren cs = true → lookupChild cs s = some c → wfNode c = true := by
  intro cs
  induction cs with
  | nil => intro s c _ hc; simp [lookupChild] at hc
  | cons hd tl ih =>
    intro s c hwf hc
    obtain ⟨a, b⟩ := hd
    simp only [wfChildren, Bool.and_eq_true] at hwf
    by_cases ha : a = s
    · have : b = c := by simpa [lookupChild, ha] using hc
      rw [← this]
      exact hwf.1.1.2
    · exact ih s c hwf.2 (by simpa [lookupChild, ha] using hc)

theorem wfNode_lookupN :
    ∀ (q : Path) (t n : Node), wfNode t = true →
    lookupN t q = some n → wfNode n = true := by
  intro q
  induction q with
  | nil =>
    intro t n hwf h
    have : t = n := by simpa [lookupN] using h
    rw [← this]
    exact hwf
  | cons s rest ih =>
    intro t n hwf h
    cases t with
    | file c => simp [lookupN] at h
    | dir cs =>
      cases hc : lookupChild cs s with
      | none => simp [lookupN, hc] at h
      | some child =>
        simp only [lookupN, hc] at h
        exact ih child n
          (wfChildren_lookupChild cs s child (by simpa [wfNode] using hwf) hc) h

theorem mkdir_on_file (t : Node) (p : Path) (c0 : String) (hp : p ≠ [])
    (hwf : wfNode t = true) (h : lookupN t p = some (Node.file c0)) :
    ∃ t', handleRequest t (Action.mkdir p) = .ok (t', false) ∧
      isdirP t' p = true := by
  rcases List.eq_nil_or_concat p with rfl | ⟨qs, s, rfl⟩
  · exact absurd rfl hp
  · simp only [List.concat_eq_append] at h ⊢
    obtain ⟨ds, hq, hc⟩ := lookupN_concat_some t qs s _ h
    have hnd : isdirP t (qs ++ [s]) = false := by simp [isdirP, h]
    have hrf := removefileP_at qs s t ds c0 hq hc
    have hpw : ds.Pairwise (fun a b => a.1 ≠ b.1) :=
      wfChildren_pairwise ds (by
        simpa [wfNode] using wfNode_lookupN qs t (Node.dir ds) hwf hq)
    have hlk1 : lookupN (setSubtree t qs (Node.dir (removeChild ds s))) qs =
        some (Node.dir (removeChild ds s)) := lookupN_setSubtree t qs _ _ hq
    have hnone : lookupChild (removeChild ds s) s = none :=
      lookupChild_removeChild_self ds s hpw
    have hm1 : lookupN (setSubtree t qs (Node.dir (removeChild ds s)))
        (qs ++ [s]) = none := by
      rw [lookupN_append, hlk1]
      simp [lookupN, hnone]
    have hmk := makedirsP_fresh qs s (setSubtree t qs (Node.dir (removeChild ds s)))
      (removeChild ds s) hlk1 hnone
    refine ⟨setSubtree (setSubtree t qs (Node.dir (removeChild ds s))) qs
      (Node.dir (removeChild ds s ++ [(s, Node.dir [])])), ?_, ?_⟩
    · simp only [handleRequest]
      simp only [hnd, Bool.not_false, if_true, hrf]
      simp only [existsP, hm1, Option.isSome_none, Bool.false_eq_true, if_false, hmk]
    · have hlk2 : lookupN (setSubtree (setSubtree t qs (Node.dir (removeChild ds s)))
          qs (Node.dir (removeChild ds s ++ [(s, Node.dir [])]))) (qs ++ [s]) =
          some (Node.dir []) := by
        rw [lookupN_append, lookupN_setSubtree _ qs _ _ hlk1]
        simp [lookupN, lookupChild_append_fresh _ _ _ hnone]
      simp [isdirP, hlk2]

theorem write_on_dir (t : Node) (p : Path) (cs0 : List (String × Node))
    (c : String) (hp : p ≠ []) (hwf : wfNode t = true)
    (h : lookupN t p = some (Node.dir cs0)) :
    ∃ t', handleRequest t (Action.write p c) = .ok (t', true) ∧
      readfileP t' p = .ok c := by
  rcases List.eq_nil_or_concat p with rfl | ⟨qs, s, rfl⟩
  · exact absurd rfl hp
  · simp only [List.concat_eq_append] at h ⊢
    obtain ⟨ds, hq, hc⟩ := lookupN_concat_some t qs s _ h
    have hex : existsP t (qs ++ [s]).dropLast = true := by
      simp [List.dropLast_concat, existsP, hq]
    have hid : isdirP t (qs ++ [s]) = true := by simp [isdirP, h]
    have hrd := removedirP_at qs s t ds cs0 hq hc
    have hpw : ds.Pairwise (fun a b => a.1 ≠ b.1) :=
      wfChildren_pairwise ds (by
        simpa [wfNode] using wfNode_lookupN qs t (Node.dir ds) hwf hq)
    have hlk1 : lookupN (setSubtree t qs (Node.dir (removeChild ds s))) qs =
        some (Node.dir (removeChild ds s)) := lookupN_setSubtree t qs _ _ hq
    have hnone : lookupChild (removeChild ds s) s = none :=
      lookupChild_removeChild_self ds s hpw
    have hm1 : lookupN (setSubtree t qs (Node.dir (removeChild ds s)))
        (qs ++ [s]) = none := by
      rw [lookupN_append, hlk1]
      simp [lookupN, hnone]
    have hwr := writefileP_fresh qs s (setSubtree t qs (Node.dir (removeChild ds s)))
      (removeChild ds s) c hlk1 hnone
    refine ⟨setSubtree (setSubtree t qs (Node.dir (removeChild ds s))) qs
      (Node.dir (removeChild ds s ++ [(s, Node.file c)])), ?_, ?_⟩
    · simp only [handleRequest]
      simp only [hex, if_true]
      simp only [hid, if_true, hrd]
      simp only [existsP, hm1, Option.isSome_none, Bool.false_eq_true, if_false, hwr]
    · have hlk2 : lookupN (setSubtree (setSubtree t qs (Node.dir (removeChild ds s)))
          qs (Node.dir (removeChild ds s ++ [(s, Node.file c)]))) (qs ++ [s]) =
          some (Node.file c) := by
        rw [lookupN_append, lookupN_setSubtree _ qs _ _ hlk1]
        simp [lookupN, lookupChild_append_fresh _ _ _ hnone]
      simp [readfileP, hlk2]

/-- C8: type conflicts are resolved in favor of the incoming action.  When
`p` currently exists as a file, `MkDir{p}` removes the file and creates the
directory, so `p` is a directory afterward; when `p` currently exists as a
directory, `Write{p, c}` removes the directory and writes the file, so `p`
is a regular file with content exactly `c` afterward. -/
theorem c8_type_conflicts (t : Node) (p : Path) (hp : p ≠ [])
    (hwf : wfNode t = true) :
    (∀ c0, lookupN t p = some (Node.file c0) →
      ∃ t', handleRequest t (Action.mkdir p) = .ok (t', false) ∧
        isdirP t' p = true) ∧
    (∀ cs0 c, lookupN t p = some (Node.dir cs0) →
      ∃ t', handleRequest t (Action.write p c) = .ok (t', true) ∧
        readfileP t' p = .ok c) :=
  ⟨fun c0 h => mkdir_on_file t p c0 hp hwf h,
   fun cs0 c h => write_on_dir t p cs0 c hp hwf h⟩

/-- Witness for C8 at concrete inputs: `mkdir` over a file, and `write` over
a directory. -/
theorem c8_type_conflicts_witness :
    (∃ t', handleRequest (Node.dir [("x", Node.file "a")]) (Action.mkdir ["x"]) =
        .ok (t', false) ∧ isdirP t' ["x"] = true) ∧
    (∃ t', handleRequest (Node.dir [("d", Node.dir [])]) (Action.write ["d"] "hi") =
        .ok (t', true) ∧ readfileP t' ["d"] = .ok "hi") :=
  ⟨(c8_type_conflicts (Node.dir [("x", Node.file "a")]) ["x"] (by decide)
      (by decide)).1 "a" rfl,
   (c8_type_conflicts (Node.dir [("d", Node.dir [])]) ["d"] (by decide)
      (by decide)).2 [] "hi" rfl⟩

theorem mem_dirRelsC_of_child :
    ∀ (cs : List (String × Node)) (s : String) (ccs : List (String × Node))
      (rel : String),
    lookupChild cs s = some (Node.dir ccs) → childRel rel s ∈ dirRelsC rel cs := by
  intro cs
  induction cs with
  | nil => intro s ccs rel hc; simp [lookupChild] at hc
  | cons hd tl ih =>
    intro s ccs rel hc
    obtain ⟨a, b⟩ := hd
    by_cases ha : a = s
    · subst ha
      have hb : b = Node.dir ccs := by simpa [lookupChild] using hc
      subst hb
      simp only [dirRelsC, dirRelsItem, Finset.mem_union]
      exact Or.inl (Finset.mem_insert_self _ _)
    · simp only [dirRelsC, Finset.mem_union]
      exact Or.inr (ih s ccs rel (by simpa [lookupChild, ha] using hc))

theorem dirRels_sub_of_child :
    ∀ (cs : List (String × Node)) (s : String) (c : Node) (rel : String),
    lookupChild cs s = some c →
    ∀ r ∈ dirRels (childRel rel s) c, r ∈ dirRelsC rel cs := by
  intro cs
  induction cs with
  | nil => intro s c rel hc; simp [lookupChild] at hc
  | cons hd tl ih =>
    intro s c rel hc r hr
    obtain ⟨a, b⟩ := hd
    by_cases ha : a = s
    · subst ha
      have hb : b = c := by simpa [lookupChild] using hc
      subst hb
      simp only [dirRelsC, Finset.mem_union]
      refine Or.inl ?_
      cases b with
      | file c0 => simp [dirRels] at hr
      | dir ccs =>
        simp only [dirRels] at hr
        simp only [dirRelsItem]
        exact Finset.mem_insert_of_mem hr
    · simp only [dirRelsC, Finset.mem_union]
      exact Or.inr (ih s c rel (by simpa [lookupChild, ha] using hc) r hr)

theorem ancestors_in_dirRels :
    ∀ (p : Path) (n : Node) (rel : String), isfileP n p = true →
    ∀ r ∈ ancRelsAux rel p.dropLast, r ∈ dirRels rel n := by
  intro p
  induction p with
  | nil => intro n rel h r hr; simp [ancRelsAux] at hr
  | cons s rest ih =>
    intro n rel h r hr
    cases n with
    | file c => simp [isfileP, lookupN] at h
    | dir cs =>
      cases hc : lookupChild cs s with
      | none => simp [isfileP, lookupN, hc] at h
      | some child =>
        have hchild : isfileP child rest = true := by
          simpa [isfileP, lookupN, hc] using h
        cases rest with
        | nil => simp [ancRelsAux] at hr
        | cons s' rest' =>
          simp only [List.dropLast_cons₂, ancRelsAux, List.mem_cons] at hr
          rcases hr with rfl | hr
          · cases child with
            | file c2 => simp [isfileP, lookupN] at hchild
            | dir ccs =>
              simp only [dirRels]
              exact mem_dirRelsC_of_child cs s ccs rel hc
          · have hmem := ih child (childRel rel s) hchild r (by
              simpa [List.dropLast_cons₂, ancRelsAux] using hr)
            simp only [dirRels]
            exact dirRels_sub_of_child cs s child rel hc r hmem

/-- C4 (amended): after the constructor's initial walk, `_watch_dirs`
contains the root — stored as the ABSOLUTE root path `dir_path`, not as the
empty relative path — `_watch_files` is exactly the set of relative file
paths of the source tree, and every file path has the relative paths of all
of its proper ancestor directories in `_watch_dirs`.  (The original claim
additionally asserts the invariant after every handled event and the root
stored as the empty path; both fail, see the counterexample.) -/
theorem c4_invariant_after_init (dir_path : String) (cs : List (String × Node)) :
    dir_path ∈ (initSource dir_path cs).2.watch_dirs ∧
    (initSource dir_path cs).2.watch_files = fileRels "" (Node.dir cs) ∧
    ∀ p : Path, isfileP (Node.dir cs) p = true →
      ∀ r ∈ ancRelsAux "" p.dropLast, r ∈ (initSource dir_path cs).2.watch_dirs := by
  refine ⟨?_, ?_, ?_⟩
  · rw [initSource_dirs]
    exact Finset.mem_union_left _ (Finset.mem_singleton_self _)
  · rw [initSource_files]
    rfl
  · intro p hp r hr
    rw [initSource_dirs]
    refine Finset.mem_union_right _ ?_
    have hm := ancestors_in_dirRels p (Node.dir cs) "" hp r hr
    simpa [dirRels] using hm

/-- Witness for C4 at a concrete tree: the walk on `/r` over `a/f` puts the
ancestor `a` of the file `a/f` in `_watch_dirs`, along with the root entry
`/r`. -/
theorem c4_invariant_after_init_witness :
    "a" ∈ (initSource "/r" [("a", Node.dir [("f", Node.file "x")])]).2.watch_dirs ∧
    "/r" ∈ (initSource "/r" [("a", Node.dir [("f", Node.file "x")])]).2.watch_dirs :=
  ⟨(c4_invariant_after_init "/r" [("a", Node.dir [("f", Node.file "x")])]).2.2
      ["a", "f"] (by decide) "a" (by decide),
   (c4_invariant_after_init "/r" [("a", Node.dir [("f", Node.file "x")])]).1⟩

theorem isdirP_file (c : String) (q : Path) : isdirP (Node.file c) q = false := by
  cases q <;> simp [isdirP, lookupN]

theorem isdirP_dir_cons (cs : List (String × Node)) (s : String) (rest : Path) :
    isdirP (Node.dir cs) (s :: rest) =
      match lookupChild cs s with
      | some c => isdirP c rest
      | none => false := by
  cases hc : lookupChild cs s <;> simp [isdirP, lookupN, hc]

theorem readfileP_dir_cons (cs : List (String × Node)) (s : String) (rest : Path) :
    readfileP (Node.dir cs) (s :: rest) =
      match lookupChild cs s with
      | some c => readfileP c rest
      | none => .error .notFound := by
  cases hc : lookupChild cs s <;> simp [readfileP, lookupN, hc]

theorem lookupChild_syncChildren_none (dirs files : Finset String)
    (rel name : String) :
    ∀ cs : List (String × Node), (∀ c ∈ cs, c.1 ≠ name) →
    lookupChild (syncChildren dirs files rel cs) name = none := by
  intro cs
  induction cs with
  | nil => intro _; simp [syncChildren, lookupChild]
  | cons hd tl ih =>
    intro hall
    obtain ⟨a, b⟩ := hd
    have ha : a ≠ name := hall (a, b) (by simp)
    have htl : ∀ c ∈ tl, c.1 ≠ name := fun c hc => hall c (by simp [hc])
    cases b with
    | dir ccs =>
      by_cases hm : childRel rel a ∈ dirs
      · simp [syncChildren, hm, lookupChild, ha, ih htl]
      · simp [syncChildren, hm, ih htl]
    | file c0 =>
      by_cases hm : childRel rel a ∈ files
      · simp [syncChildren, hm, lookupChild, ha, ih htl]
      · simp [syncChildren, hm, ih htl]

theorem lookupChild_syncChildren (dirs files : Finset String) (rel name : String) :
    ∀ cs : List (String × Node), wfChildren cs = true →
    lookupChild (syncChildren dirs files rel cs) name =
      (match lookupChild cs name with
       | some (Node.dir ccs) =>
           if childRel rel name ∈ dirs
           then some (syncNode dirs files (childRel rel name) (Node.dir ccs))
           else none
       | some (Node.file c) =>
           if childRel rel name ∈ files then some (Node.file c) else none
       | none => none) := by
  intro cs
  induction cs with
  | nil => intro _; simp [syncChildren, lookupChild]
  | cons hd tl ih =>
    intro hwf
    obtain ⟨a, b⟩ := hd
    simp only [wfChildren, Bool.and_eq_true] at hwf
    by_cases ha : a = name
    · subst ha
      have hnone : ∀ c ∈ tl, c.1 ≠ a := by
        intro c hc
        have := List.all_eq_true.mp hwf.1.2 c hc
        simpa [bne_iff_ne] using this
      cases b with
      | dir ccs =>
        by_cases hm : childRel rel a ∈ dirs
        · simp [syncChildren, hm, lookupChild]
        · simp [syncChildren, hm, lookupChild,
            lookupChild_syncChildren_none dirs files rel a tl hnone]
      | file c0 =>
        by_cases hm : childRel rel a ∈ files
        · simp [syncChildren, hm, lookupChild]
        · simp [syncChildren, hm, lookupChild,
            lookupChild_syncChildren_none dirs files rel a tl hnone]
    · cases b with
      | dir ccs =>
        by_cases hm : childRel rel a ∈ dirs
        · simp [syncChildren, hm, lookupChild, ha, ih hwf.2]
        · simp [syncChildren, hm, lookupChild, ha, ih hwf.2]
      | file c0 =>
        by_cases hm : childRel rel a ∈ files
        · simp [syncChildren, hm, lookupChild, ha, ih hwf.2]
        · simp [syncChildren, hm, lookupChild, ha, ih hwf.2]

theorem lookupChild_sync_dir (dirs files : Finset String) (rel name : String)
    (cs ccs : List (String × Node)) (hwf : wfChildren cs = true)
    (hc : lookupChild cs name = some (Node.dir ccs)) :
    lookupChild (syncChildren dirs files rel cs) name =
      if childRel rel name ∈ dirs
      then some (syncNode dirs files (childRel rel name) (Node.dir ccs))
      else none := by
  have h := lookupChild_syncChildren dirs files rel name cs hwf
  rw [hc] at h
  exact h.trans rfl

theorem lookupChild_sync_file (dirs files : Finset String) (rel name : String)
    (cs : List (String × Node)) (c : String) (hwf : wfChildren cs = true)
    (hc : lookupChild cs name = some (Node.file c)) :
    lookupChild (syncChildren dirs files rel cs) name =
      if childRel rel name ∈ files then some (Node.file c) else none := by
  have h := lookupChild_syncChildren dirs files rel name cs hwf
  rw [hc] at h
  exact h.trans rfl

theorem lookupChild_sync_miss (dirs files : Finset String) (rel name : String)
    (cs : List (String × Node)) (hwf : wfChildren cs = true)
    (hc : lookupChild cs name = none) :
    lookupChild (syncChildren dirs files rel cs) name = none := by
  have h := lookupChild_syncChildren dirs files rel name cs hwf
  rw [hc] at h
  exact h.trans rfl

theorem sync_isdir_iff (dirs files : Finset String) :
    ∀ (p : Path) (n : Node) (rel : String), p ≠ [] → wfNode n = true →
    (isdirP (syncNode dirs files rel n) p = true ↔
      isdirP n p = true ∧ ∀ r ∈ ancRelsAux rel p, r ∈ dirs) := by
  intro p
  induction p with
  | nil => intro n rel hp _; exact absurd rfl hp
  | cons s rest ih =>
    intro n rel _ hwf
    cases n with
    | file c => simp [syncNode, isdirP_file]
    | dir cs =>
      have hwfc : wfChildren cs = true := by simpa [wfNode] using hwf
      have hsync : syncNode dirs files rel (Node.dir cs) =
          Node.dir (syncChildren dirs files rel cs) := rfl
      cases hc : lookupChild cs s with
      | none =>
        have hchar := lookupChild_sync_miss dirs files rel s cs hwfc hc
        rw [hsync, isdirP_dir_cons, hchar, isdirP_dir_cons, hc]
        simp
      | some child =>
        cases child with
        | file c0 =>
          have hchar := lookupChild_sync_file dirs files rel s cs c0 hwfc hc
          rw [hsync, isdirP_dir_cons, hchar, isdirP_dir_cons, hc]
          by_cases hm : childRel rel s ∈ files
          · rw [if_pos hm]
            simp [isdirP_file]
          · rw [if_neg hm]
            simp [isdirP_file]
        | dir ccs =>
          have hchar := lookupChild_sync_dir dirs files rel s cs ccs hwfc hc
          have hwfcc : wfNode (Node.dir ccs) = true :=
            wfChildren_lookupChild cs s _ hwfc hc
          rw [hsync, isdirP_dir_cons, hchar, isdirP_dir_cons, hc]
          by_cases hm : childRel rel s ∈ dirs
          · rw [if_pos hm]
            dsimp only
            cases rest with
            | nil =>
              simp [isdirP, lookupN, syncNode, ancRelsAux, hm]
            | cons s' r' =>
              rw [ih (Node.dir ccs) (childRel rel s) (by simp) hwfcc]
              simp only [ancRelsAux, List.mem_cons, forall_eq_or_imp, hm, true_and]
          · rw [if_neg hm]
            dsimp only
            simp only [ancRelsAux, List.mem_cons, forall_eq_or_imp, hm, false_and,
              and_false]
            simp [isdirP]

theorem sync_readfile_iff (dirs files : Finset String) :
    ∀ (p : Path) (n : Node) (rel : String) (c : String), p ≠ [] →
    wfNode n = true →
    (readfileP (syncNode dirs files rel n) p = .ok c ↔
      readfileP n p = .ok c ∧ p.foldl childRel rel ∈ files ∧
        ∀ r ∈ ancRelsAux rel p.dropLast, r ∈ dirs) := by
  intro p
  induction p with
  | nil => intro n rel c hp _; exact absurd rfl hp
  | cons s rest ih =>
    intro n rel c _ hwf
    cases n with
    | file c0 =>
      have hsame : syncNode dirs files rel (Node.file c0) = Node.file c0 := rfl
      rw [hsame]
      simp [readfileP, lookupN]
    | dir cs =>
      have hwfc : wfChildren cs = true := by simpa [wfNode] using hwf
      have hsync : syncNode dirs files rel (Node.dir cs) =
          Node.dir (syncChildren dirs files rel cs) := rfl
      cases hc : lookupChild cs s with
      | none =>
        have hchar := lookupChild_sync_miss dirs files rel s cs hwfc hc
        rw [hsync, readfileP_dir_cons, hchar, readfileP_dir_cons, hc]
        simp
      | some child =>
        cases child with
        | dir ccs =>
          have hchar := lookupChild_sync_dir dirs files rel s cs ccs hwfc hc
          have hwfcc : wfNode (Node.dir ccs) = true :=
            wfChildren_lookupChild cs s _ hwfc hc
          rw [hsync, readfileP_dir_cons, hchar, readfileP_dir_cons, hc]
          by_cases hm : childRel rel s ∈ dirs
          · rw [if_pos hm]
            dsimp only
            cases rest with
            | nil =>
              have h1 : readfileP (syncNode dirs files (childRel rel s)
                  (Node.dir ccs)) [] = .error .other := rfl
              have h2 : readfileP (Node.dir ccs) [] = .error .other := rfl
              rw [h1, h2]
              simp
            | cons s' r' =>
              rw [ih (Node.dir ccs) (childRel rel s) c (by simp) hwfcc]
              simp only [List.dropLast_cons₂, ancRelsAux, List.mem_cons,
                forall_eq_or_imp, hm, true_and, List.foldl_cons]
          · rw [if_neg hm]
            dsimp only
            cases rest with
            | nil =>
              have h2 : readfileP (Node.dir ccs) [] = .error .other := rfl
              rw [h2]
              simp [readfileP, lookupN]
            | cons s' r' =>
              simp only [List.dropLast_cons₂, ancRelsAux, List.mem_cons,
                forall_eq_or_imp, hm, false_and, and_false]
              simp [readfileP, lookupN]
        | file c0 =>
          have hchar := lookupChild_sync_file dirs files rel s cs c0 hwfc hc
          rw [hsync, readfileP_dir_cons, hchar, readfileP_dir_cons, hc]
          by_cases hm : childRel rel s ∈ files
          · rw [if_pos hm]
            dsimp only
            cases rest with
            | nil =>
              have h1 : readfileP (Node.file c0) [] = .ok c0 := rfl
              rw [h1]
              simp only [List.dropLast, ancRelsAux, List.foldl_cons, List.foldl_nil]
              constructor
              · intro hcc
                have hcc' : c0 = c := by simpa using hcc
                subst hcc'
                exact ⟨rfl, hm, by simp⟩
              · intro hcc
                exact hcc.1
            | cons s' r' =>
              have h1 : readfileP (Node.file c0) (s' :: r') = .error .notFound := rfl
              rw [h1]
              simp
          · rw [if_neg hm]
            dsimp only
            cases rest with
            | nil =>
              have h1 : readfileP (Node.file c0) [] = .ok c0 := rfl
              rw [h1]
              simp only [List.dropLast, ancRelsAux, List.foldl_cons, List.foldl_nil]
              constructor
              · intro hcc
                simp at hcc
              · intro hcc
                exact absurd hcc.2.1 hm
            | cons s' r' =>
              have h1 : readfileP (Node.file c0) (s' :: r') = .error .notFound := rfl
              rw [h1]
              simp

/-- C6 (amended): applying a `Sync` action runs `_sync_directory`, which
only deletes and never creates: an entry of the target survives exactly when
it is advertised AND every ancestor directory on its path is advertised in
`dirs` — a directory at path `p` survives iff it was there and every
nonempty relative path along `p` (including `p` itself) is in `dirs`; a file
survives with its content iff it was there, its own relative path is in
`files`, and every proper ancestor is in `dirs`.  The original claim's last
clause — that EVERY entry whose relative path is advertised remains — is
false: an advertised file below an unadvertised directory is deleted with
that directory (see the counterexample). -/
theorem c6_sync_characterization (dirs files : Finset String) (t : Node)
    (p : Path) (hp : p ≠ []) (hwf : wfNode t = true) :
    handleRequest t (Action.sync dirs files) =
      .ok (syncNode dirs files "" t, false) ∧
    (isdirP (syncNode dirs files "" t) p = true ↔
      isdirP t p = true ∧ ∀ r ∈ ancRelsAux "" p, r ∈ dirs) ∧
    (∀ c, readfileP (syncNode dirs files "" t) p = .ok c ↔
      readfileP t p = .ok c ∧ p.foldl childRel "" ∈ files ∧
        ∀ r ∈ ancRelsAux "" p.dropLast, r ∈ dirs) :=
  ⟨rfl, sync_isdir_iff dirs files p t "" hp hwf,
   fun c => sync_readfile_iff dirs files p t "" c hp hwf⟩

/-- Witness for C6 at a concrete reconciliation: dirs `{"a"}`,
files `{"a/f"}` over a target holding `a/f`, an orphan directory `junk` and
an orphan file `old`. -/
theorem c6_sync_characterization_witness :
    handleRequest (Node.dir [("a", Node.dir [("f", Node.file "x")]),
        ("junk", Node.dir []), ("old", Node.file "z")])
        (Action.sync {"a"} {"a/f"}) =
      .ok (syncNode {"a"} {"a/f"} ""
        (Node.dir [("a", Node.dir [("f", Node.file "x")]),
          ("junk", Node.dir []), ("old", Node.file "z")]), false) ∧
    (isdirP (syncNode {"a"} {"a/f"} ""
        (Node.dir [("a", Node.dir [("f", Node.file "x")]),
          ("junk", Node.dir []), ("old", Node.file "z")])) ["a", "f"] = true ↔
      isdirP (Node.dir [("a", Node.dir [("f", Node.file "x")]),
          ("junk", Node.dir []), ("old", Node.file "z")]) ["a", "f"] = true ∧
        ∀ r ∈ ancRelsAux "" ["a", "f"], r ∈ ({"a"} : Finset String)) ∧
    (∀ c, readfileP (syncNode {"a"} {"a/f"} ""
        (Node.dir [("a", Node.dir [("f", Node.file "x")]),
          ("junk", Node.dir []), ("old", Node.file "z")])) ["a", "f"] = .ok c ↔
      readfileP (Node.dir [("a", Node.dir [("f", Node.file "x")]),
          ("junk", Node.dir []), ("old", Node.file "z")]) ["a", "f"] = .ok c ∧
        (["a", "f"] : Path).foldl childRel "" ∈ ({"a/f"} : Finset String) ∧
        ∀ r ∈ ancRelsAux "" (["a", "f"] : Path).dropLast,
          r ∈ ({"a"} : Finset String)) :=
  c6_sync_characterization {"a"} {"a/f"}
    (Node.dir [("a", Node.dir [("f", Node.file "x")]),
      ("junk", Node.dir []), ("old", Node.file "z")])
    ["a", "f"] (by decide) (by decide)

/-- C6 counterexample: with advertised `dirs = ∅` and `files = {"a/f"}`, the
target entry `a/f` IS advertised in `files`, yet reconciliation deletes it:
its parent `a` is not in `dirs`, so `_sync_directory` removes `a`
recursively without descending — contradicting the clause that every entry
whose relative path is advertised remains. -/
theorem c6_counterexample :
    ("a/f" ∈ ({"a/f"} : Finset String)) ∧
    readfileP (Node.dir [("a", Node.dir [("f", Node.file "x")])]) ["a", "f"] =
      .ok "x" ∧
    readfileP (syncNode ∅ {"a/f"} ""
        (Node.dir [("a", Node.dir [("f", Node.file "x")])])) ["a", "f"] =
      .error Err.notFound :=
  ⟨by decide, by decide, by decide⟩

end Repl
